import Mathlib

/-!
Verification of the WAMP communication binding (coatyio/binding.wamp.js).

The development shallowly embeds the two source modules:

* `src/wamp-topic.ts` — the topic codec (`WampTopic`): encoding and decoding
  of Coaty communication events into dot-separated WAMP topic URIs, with an
  escaping scheme for dots and whitespace characters inside URI components.
  JS strings are modelled as `List Char`; all functions below mirror the
  TypeScript statement by statement.

* the binding class (`WampBinding`): publication queue, subscription
  registry, and the connection open/close handlers.  The asynchronous
  autobahn session is modelled by its synchronous effect on the binding
  state; the outcome of a publish acknowledgment is a parameter.
-/

namespace WampTopic

/-- NUL (U+0000), the escape character of the topic component codec. -/
def nulChar : Char := '\x00'

/-- Model of the constant `WampTopic.WHITESPACE_CHARS`, the exact character
list of the source: every character matched by the JavaScript regexp class
`\s` (which this list reproduces verbatim), in source order. -/
def WHITESPACE_CHARS : List Char :=
  [' ', '\x0c', '\n', '\r', '\t', '\x0b',
   Char.ofNat 0xa0, Char.ofNat 0x1680,
   Char.ofNat 0x2000, Char.ofNat 0x2001, Char.ofNat 0x2002, Char.ofNat 0x2003,
   Char.ofNat 0x2004, Char.ofNat 0x2005, Char.ofNat 0x2006, Char.ofNat 0x2007,
   Char.ofNat 0x2008, Char.ofNat 0x2009, Char.ofNat 0x200a,
   Char.ofNat 0x2028, Char.ofNat 0x2029, Char.ofNat 0x202f,
   Char.ofNat 0x205f, Char.ofNat 0x3000, Char.ofNat 0xfeff]

/-- Decimal digit character for a digit value below 10 (used to model the
JavaScript decimal rendering of numbers). -/
def digitChar (d : Nat) : Char :=
  if d = 0 then '0' else if d = 1 then '1' else if d = 2 then '2'
  else if d = 3 then '3' else if d = 4 then '4' else if d = 5 then '5'
  else if d = 6 then '6' else if d = 7 then '7' else if d = 8 then '8'
  else if d = 9 then '9' else '*'

/-- Fuel-indexed decimal rendering; the fuel bounds the number of divisions
by 10 and is always sufficient at `n + 1`. -/
def natToCharsAux : Nat → Nat → List Char
  | 0, _ => []
  | fuel + 1, n =>
    if n < 10 then [digitChar n]
    else natToCharsAux fuel (n / 10) ++ [digitChar (n % 10)]

/-- Model of the JavaScript template interpolation of a number, i.e. the
canonical decimal string of a natural number. -/
def natToChars (n : Nat) : List Char := natToCharsAux (n + 1) n

/-- ASCII digit test used by the model of `parseInt`. -/
def isAsciiDigit (c : Char) : Bool := decide ('0' ≤ c) && decide (c ≤ '9')

/-- Model of the JavaScript `parseInt(s, 10)` restricted to its behaviour on
strings that begin with decimal digits (the only shape produced by
`getTopicName`): the longest digit run is read; an empty run gives NaN,
modelled as `none`. -/
def parseInt10 (l : List Char) : Option Nat :=
  let ds := l.takeWhile isAsciiDigit
  if ds = [] then none
  else some (ds.foldl (fun acc c => 10 * acc + (c.toNat - 48)) 0)

/-- Model of `i.toString().padStart(2, "0")` building the two-character code
of a whitespace character in `WHITESPACE_CHARS_ENCODING`. -/
def encodeWsCode (i : Nat) : List Char :=
  let s := natToChars i
  if s.length < 2 then '0' :: s else s

/-- Entry list of the `WHITESPACE_CHARS_ENCODING` map of the source: each
whitespace character paired with the two-character code of its index. -/
def wsPairs : List (Char × List Char) :=
  WHITESPACE_CHARS.enum.map (fun p => (p.2, encodeWsCode p.1))

/-- Lookup in the `WHITESPACE_CHARS_ENCODING` map. -/
def wsEncode (c : Char) : Option (List Char) :=
  (wsPairs.find? (fun p => decide (p.1 = c))).map Prod.snd

/-- Lookup in the `WHITESPACE_CHARS_DECODING` map (the inverted entries). -/
def wsDecode (code : List Char) : Option Char :=
  (wsPairs.find? (fun p => decide (p.2 = code))).map Prod.fst

/-- Replacement of one character by `_encodeTopicComponent`: the replace
callback of the source for characters matched by the class `[.\s]`, and the
identity on every other character.  A dot becomes three NULs; a whitespace
character becomes NUL followed by its two-character code, with the
(unreachable) map-miss fallback "00" of the source preserved. -/
def encodeChar (c : Char) : List Char :=
  if c = '.' then [nulChar, nulChar, nulChar]
  else if WHITESPACE_CHARS.contains c then
    match wsEncode c with
    | some code => nulChar :: code
    | none => [nulChar, '0', '0']
  else [c]

/-- Model of `WampTopic._encodeTopicComponent`: the global regexp replace
applies `encodeChar` to every character in order. -/
def _encodeTopicComponent : List Char → List Char
  | [] => []
  | c :: rest => encodeChar c ++ _encodeTopicComponent rest

/-- Characters matched by `.` in a JavaScript regexp (without the `s` flag):
everything except the four line terminators. -/
def isRegexDotChar (c : Char) : Bool :=
  decide (c ≠ '\n') && decide (c ≠ '\r') && decide (c ≠ Char.ofNat 0x2028) && decide (c ≠ Char.ofNat 0x2029)

/-- Model of `WampTopic._decodeTopicComponent`: the left-to-right
non-overlapping scan of the global replace on `/\u0000(..)/`.  At a NUL
whose next two characters are both regexp-dot characters, the match is
replaced: a captured pair starting with NUL yields a dot, otherwise the
two-character code is looked up in the decoding map (a JS map miss would
make the callback return `undefined`, which `String.replace` stringifies;
that branch is unreachable on encoder output). -/
def _decodeTopicComponent : List Char → List Char
  | [] => []
  | [c] => [c]
  | [c, d] => [c, d]
  | c :: a :: b :: rest2 =>
    if c = nulChar && isRegexDotChar a && isRegexDotChar b then
      (if a = nulChar then ['.']
       else match wsDecode [a, b] with
            | some w => [w]
            | none => "undefined".data) ++ _decodeTopicComponent rest2
    else c :: _decodeTopicComponent (a :: b :: rest2)

/-- Computable check that one whitespace character encodes to a NUL plus a
two-character code that decodes back to it (the single-character round-trip
of the codec, checked over the whole whitespace list). -/
def wsRoundOk (c : Char) : Bool :=
  let e := encodeChar c
  decide (e = [nulChar, e.getD 1 ' ', e.getD 2 ' ']) &&
    isRegexDotChar (e.getD 1 ' ') && isRegexDotChar (e.getD 2 ' ') &&
    decide (e.getD 1 ' ' ≠ nulChar) &&
    decide (wsDecode [e.getD 1 ' ', e.getD 2 ' '] = some c)

/-- Computable check that the encoding of one whitespace character consists
only of characters that are not a dot, not whitespace and not a hash. -/
def wsCodeOk (c : Char) : Bool :=
  (encodeChar c).all
    (fun x => decide (x ≠ '.') && decide (x ∉ WHITESPACE_CHARS) && decide (x ≠ '#'))

/-- Model of the JavaScript `topicName.split(".")`. -/
def splitOnDot : List Char → List (List Char)
  | [] => [[]]
  | c :: rest =>
    if c = '.' then [] :: splitOnDot rest
    else
      match splitOnDot rest with
      | s :: ss => (c :: s) :: ss
      | [] => [[c]]

end WampTopic

/-- Model of the `CommunicationEventType` enum of the external `@coaty/core`
framework, restricted to the thirteen concrete event kinds that the topic
codec maps to three-letter components (the `Raw` kind and the `OneWay` and
`TwoWay` sentinels never reach `WampTopic`). -/
inductive CommunicationEventType
  | Advertise | Deadvertise | Channel | Associate | IoValue
  | Discover | Resolve | Query | Retrieve | Update | Complete | Call | Return
  deriving DecidableEq, Repr

namespace WampTopic

/-- Numeric value of each event kind in the `@coaty/core` enum (`Raw = 0`,
the `OneWay` sentinel is 1 and the `TwoWay` sentinel is 7, the concrete
kinds fill the gaps in declaration order). -/
def eventTypeCode : CommunicationEventType → Nat
  | .Advertise => 2 | .Deadvertise => 3 | .Channel => 4 | .Associate => 5
  | .IoValue => 6
  | .Discover => 8 | .Resolve => 9 | .Query => 10 | .Retrieve => 11
  | .Update => 12 | .Complete => 13 | .Call => 14 | .Return => 15

/-- Model of `WampTopic._isOneWayEvent`: the numeric comparison
`eventType > OneWay && eventType < TwoWay` of the source. -/
def _isOneWayEvent (eventType : CommunicationEventType) : Bool :=
  decide (1 < eventTypeCode eventType) && decide (eventTypeCode eventType < 7)

/-- Model of `WampTopic._getEventTopicComponentPrefix` (renamed, keeping the
source table `TOPIC_COMPONENTS_BY_EVENT_TYPE`): the three-letter topic
component of each event kind. -/
def _getEventTopicComponentFor : CommunicationEventType → List Char
  | .Advertise => "ADV".data | .Deadvertise => "DAD".data
  | .Channel => "CHN".data | .Associate => "ASC".data | .IoValue => "IOV".data
  | .Discover => "DSC".data | .Resolve => "RSV".data | .Query => "QRY".data
  | .Retrieve => "RTV".data | .Update => "UPD".data | .Complete => "CPL".data
  | .Call => "CLL".data | .Return => "RTN".data

/-- Entry list of the source table `EVENT_TYPE_TOPIC_COMPONENTS` in its
declaration order. -/
def EVENT_TYPE_TOPIC_COMPONENTS : List (List Char × CommunicationEventType) :=
  [("ADV".data, .Advertise), ("DAD".data, .Deadvertise), ("CHN".data, .Channel),
   ("ASC".data, .Associate), ("IOV".data, .IoValue),
   ("DSC".data, .Discover), ("RSV".data, .Resolve), ("QRY".data, .Query),
   ("RTV".data, .Retrieve), ("UPD".data, .Update), ("CPL".data, .Complete),
   ("CLL".data, .Call), ("RTN".data, .Return)]

/-- Model of `WampTopic._getEventType`: object-key lookup in the component
table; an unknown component gives `undefined`, modelled as `none`. -/
def _getEventType (topicComponent : List Char) : Option CommunicationEventType :=
  (EVENT_TYPE_TOPIC_COMPONENTS.find? (fun p => decide (p.1 = topicComponent))).map Prod.snd

/-- Model of `WampTopic._parseEvent`: an event component longer than three
characters splits into the three-character type and the remaining filter. -/
def _parseEvent (event : List Char) : Option CommunicationEventType × Option (List Char) :=
  let typeLen := 3
  let hasEventFilter := decide (event.length > typeLen)
  let type := if hasEventFilter then event.take typeLen else event
  let filter := if hasEventFilter then some (event.drop typeLen) else none
  (_getEventType type, filter)

/-- The constant `WampTopic.PROTOCOL_NAME`. -/
def protocolName : List Char := "coaty".data

/-- The constant `WampTopic.PROTOCOL_NAME_PREFIX` (protocol name plus dot;
renamed because of a lexical restriction on declaration names). -/
def protocolNameDot : List Char := protocolName ++ ['.']

/-- Model of `WampTopic.isCoatyTopicLike`: `startsWith` on the protocol name
plus dot. -/
def isCoatyTopicLike (topicName : List Char) : Bool :=
  protocolNameDot.isPrefixOf topicName

/-- Model of `WampTopic.getTopicName`.  The optional `eventTypeFilter` and
`correlationId` follow the JavaScript truthiness of the source: an absent or
empty filter leaves the event component bare, and the correlation component
is appended exactly for non-one-way events (an absent id would be
interpolated by the template literal as the text "undefined"). -/
def getTopicName (version : Nat) (namespaceC : List Char)
    (eventType : CommunicationEventType) (eventTypeFilter : Option (List Char))
    (sourceId : List Char) (correlationId : Option (List Char)) : List Char :=
  let event := _getEventTopicComponentFor eventType ++
    (match eventTypeFilter with
     | some f => if f = [] then [] else _encodeTopicComponent f
     | none => [])
  let topic := protocolName ++ '.' :: natToChars version ++ '.' ::
    _encodeTopicComponent namespaceC ++ '.' :: event ++ '.' :: sourceId
  if _isOneWayEvent eventType then topic
  else topic ++ '.' :: (match correlationId with
    | some c => c
    | none => "undefined".data)

/-- Namespace component of a topic filter: the interpolation
`namespace ? encode(namespace) : ""` of the source, where an absent or
empty (falsy) namespace gives an empty component. -/
def namespaceComponentOf (namespaceC : Option (List Char)) : List Char :=
  match namespaceC with
  | some ns => if ns = [] then [] else _encodeTopicComponent ns
  | none => []

/-- Correlation tail of a topic filter: the interpolation
`correlationId ? "." + correlationId : "."` of the source, where an absent
or empty (falsy) correlation id leaves a bare trailing dot. -/
def correlationComponentOf (correlationId : Option (List Char)) : List Char :=
  match correlationId with
  | some c => if c = [] then ['.'] else '.' :: c
  | none => ['.']

/-- Model of `WampTopic.getTopicFilter`.  An absent or empty namespace gives
an empty namespace component; for non-one-way events a truthy correlation id
is appended after an extra dot, otherwise only the extra dot is appended. -/
def getTopicFilter (version : Nat) (namespaceC : Option (List Char))
    (eventType : CommunicationEventType) (eventTypeFilter : Option (List Char))
    (correlationId : Option (List Char)) : List Char :=
  let event := _getEventTopicComponentFor eventType ++
    (match eventTypeFilter with
     | some f => if f = [] then [] else _encodeTopicComponent f
     | none => [])
  let comps := protocolName ++ '.' :: natToChars version ++ '.' ::
    namespaceComponentOf namespaceC ++ '.' :: event ++ ['.']
  if _isOneWayEvent eventType then comps
  else comps ++ correlationComponentOf correlationId

/-- Field record of a decoded `WampTopic` instance: the six topic components
read back by `createByName`.  `version` and `eventType` are optional because
`parseInt` can give NaN and the component table lookup can give
`undefined`. -/
structure WampTopicObj where
  version : Option Nat
  namespaceC : List Char
  eventType : Option CommunicationEventType
  eventTypeFilter : Option (List Char)
  sourceId : List Char
  correlationId : Option (List Char)
  deriving DecidableEq, Repr

/-- Model of `WampTopic.createByName`: reject non-Coaty topics, split on
dots, destructure the first six components, parse the version and the event
component, decode namespace and filter, and turn an empty correlation
component into `undefined`.  A Coaty-like topic with fewer than five
components would make the source throw on an `undefined` component; that
shape is modelled as `none`. -/
def createByName (topicName : List Char) : Option WampTopicObj :=
  if ¬ isCoatyTopicLike topicName then none
  else match splitOnDot topicName with
    | _ :: version :: namespaceC :: event :: sourceId :: rest =>
      let parsed := _parseEvent event
      some {
        version := parseInt10 version
        namespaceC := _decodeTopicComponent namespaceC
        eventType := parsed.1
        eventTypeFilter := parsed.2.map _decodeTopicComponent
        sourceId := sourceId
        correlationId :=
          match rest with
          | [] => none
          | c :: _ => if c = [] then none else some c }
    | _ => none

end WampTopic

namespace WampBinding

/-- Model of the WAMP publish options read by the drain loop
(`options?.retain || false`, `options?.acknowledge || false`). -/
structure PublicationOptions where
  retain : Bool
  acknowledge : Bool
  deriving DecidableEq, Repr

/-- Model of the `PublicationItem` interface: topic, opaque payload, payload
framing flag and the optional WAMP publish options of the event. -/
structure PublicationItem where
  topic : String
  payload : String
  isKwargsPayload : Bool
  options : Option PublicationOptions
  deriving DecidableEq, Repr

/-- Effective acknowledge flag of a queued item, `options?.acknowledge ||
false` in the source. -/
def itemAcknowledge (item : PublicationItem) : Bool :=
  match item.options with
  | some o => o.acknowledge
  | none => false

/-- Model of `WampBinding._addPublicationItem` acting on the pending
publication queue.  The source first derives `topic` and `payload` from the
event via `_getTopicFor`; the model receives the derived item.  With `once`
the item is dropped when its topic is already queued; with `shouldAddFirst`
it is unshifted to the front, otherwise pushed to the back. -/
def _addPublicationItem (pending : List PublicationItem) (item : PublicationItem)
    (shouldAddFirst : Bool := false) (once : Bool := false) : List PublicationItem :=
  if once && pending.any (fun i => decide (i.topic = item.topic)) then pending
  else if shouldAddFirst then item :: pending else pending ++ [item]

/-- Model of `WampBinding._doDrainPublications`.  The session is an external
collaborator: `ackResult` is the outcome of the router acknowledgment of an
acknowledged publish (autobahn returns a promise exactly when `acknowledge`
is set, and an unacknowledged publish returns `undefined` and always
proceeds).  The result is the remaining queue, the final value of
`_isPublishingDeferred` and the list of items published, in publish order.
An absent or closed connection, like an empty queue, stops and re-arms
deferred publishing; a failed acknowledgment stops the drain with the head
item and everything behind it kept queued. -/
def _doDrainPublications (ackResult : PublicationItem → Bool) (isOpen : Bool) :
    List PublicationItem → List PublicationItem × Bool × List PublicationItem
  | [] => ([], true, [])
  | item :: rest =>
    if isOpen = false then (item :: rest, true, [])
    else if itemAcknowledge item then
      if ackResult item then
        let r := _doDrainPublications ackResult isOpen rest
        (r.1, r.2.1, item :: r.2.2)
      else (item :: rest, true, [])
    else
      let r := _doDrainPublications ackResult isOpen rest
      (r.1, r.2.1, item :: r.2.2)

/-- Model of `WampBinding._drainPublications`: a no-op unless
`_isPublishingDeferred` is set, in which case the flag is cleared and the
drain loop runs (reporting its own final flag value). -/
def _drainPublications (ackResult : PublicationItem → Bool) (isOpen : Bool)
    (pending : List PublicationItem) (isPublishingDeferred : Bool) :
    List PublicationItem × Bool × List PublicationItem :=
  if isPublishingDeferred = false then (pending, isPublishingDeferred, [])
  else _doDrainPublications ackResult isOpen pending

/-- Model of the join-event loop of the `connection.onopen` handler: the
join events are walked from the last index down to 0, each added with
`shouldAddFirst` and `once` set. -/
def addJoinEventsAtFront : List PublicationItem → List PublicationItem → List PublicationItem
  | [], pending => pending
  | e :: rest, pending => _addPublicationItem (addJoinEventsAtFront rest pending) e true true

/-- Model of the `SubscriptionItem` interface.  The source field `match` is
a Lean keyword and is called `matchMode` here; the live autobahn
subscription handle is modelled by an opaque identifier. -/
structure SubscriptionItem where
  eventType : CommunicationEventType
  topic : String
  matchMode : String
  isKwargsPayload : Bool
  subscription : Option Nat
  deriving DecidableEq, Repr

/-- Model of `WampBinding._subscriptionItemPredicate`. -/
def _subscriptionItemPredicate (eventType : CommunicationEventType) (topic : String)
    (matchMode : String) (item : SubscriptionItem) : Bool :=
  decide (item.eventType = eventType) && decide (item.topic = topic) &&
    decide (item.matchMode = matchMode)

/-- Model of `WampBinding._addSubscriptionItem` acting on the issued item
list (the source first derives the topic filter and match mode from the
event via `_getTopicFilterFor`; the model receives the derived item).  A
missing key pushes the item; an existing key is replaced in place and the
previously stored item is returned, as the source hands it to
`_unsubscribeItems` to release its live handle. -/
def _addSubscriptionItem (issued : List SubscriptionItem) (item : SubscriptionItem) :
    List SubscriptionItem × Option SubscriptionItem :=
  match issued.findIdx? (_subscriptionItemPredicate item.eventType item.topic item.matchMode) with
  | none => (issued ++ [item], none)
  | some index => (issued.set index item, issued.get? index)

/-- Model of `WampBinding._removeSubscriptionItem` keyed by the derived
topic filter and match mode: a missing key is a no-op, an existing key is
spliced out and the removed item returned for live-handle release. -/
def _removeSubscriptionItem (issued : List SubscriptionItem)
    (eventType : CommunicationEventType) (topic : String) (matchMode : String) :
    List SubscriptionItem × Option SubscriptionItem :=
  match issued.findIdx? (_subscriptionItemPredicate eventType topic matchMode) with
  | none => (issued, none)
  | some index => (issued.eraseIdx index, issued.get? index)

/-- Number of issued subscription items matching a key, the measure of the
registry invariant "at most one desired item per key". -/
def desiredCount (issued : List SubscriptionItem) (eventType : CommunicationEventType)
    (topic : String) (matchMode : String) : Nat :=
  (issued.filter (_subscriptionItemPredicate eventType topic matchMode)).length

/-- Mutable state of the `WampBinding` instance: the pending publication
queue, the issued subscription items, the publishing-deferred flag, the
session log marker and the presence of connection and join options. -/
structure WampBindingState where
  pendingPublicationItems : List PublicationItem
  issuedSubscriptionItems : List SubscriptionItem
  isPublishingDeferred : Bool
  sessionIdLogItem : String
  hasConnection : Bool
  hasJoinOptions : Bool
  deriving DecidableEq, Repr

/-- Connection state notification emitted to the hosting framework via
`this.emit("communicationState", ...)`. -/
inductive StateNotification
  | online
  | offline
  deriving DecidableEq, Repr

/-- Model of `WampBinding._resetSession`: reset the session log marker,
delete the live subscription handle of every issued item, and emit exactly
one Offline notification. -/
def _resetSession (st : WampBindingState) : WampBindingState × List StateNotification :=
  ({ st with
      sessionIdLogItem := "[---] "
      issuedSubscriptionItems :=
        st.issuedSubscriptionItems.map (fun i => { i with subscription := none }) },
   [StateNotification.offline])

/-- Model of `WampBinding._reset`: drop the connection and join options,
re-arm deferred publishing, clear the publication queue and the
subscription registry, then run `_resetSession`. -/
def _reset (st : WampBindingState) : WampBindingState × List StateNotification :=
  _resetSession { st with
    hasConnection := false
    hasJoinOptions := false
    isPublishingDeferred := true
    pendingPublicationItems := []
    issuedSubscriptionItems := [] }

/-- Close reason passed by autobahn to `connection.onclose`. -/
inductive CloseReason
  | closed
  | lost
  | unreachable
  | unsupported
  | other
  deriving DecidableEq, Repr

/-- Model of the `connection.onclose` handler: a full `_reset` on every
reason except `lost`, which keeps issued publications and subscriptions for
retry and only runs `_resetSession`. -/
def connectionOnClose (reason : CloseReason) (st : WampBindingState) :
    WampBindingState × List StateNotification :=
  match reason with
  | .closed => _reset st
  | .lost => _resetSession st
  | .unreachable => _reset st
  | .unsupported => _reset st
  | .other => _reset st

/-- Model of the `connection.onopen` handler.  On a fresh session the
handler records the session id, emits exactly one Online notification,
announces the two session testaments and re-subscribes the issued items
(both router-side calls whose completions mutate no binding state
synchronously), injects the join events at the front of the publication
queue, and drains.  A synchronous throw out of the initialization steps
(modelled by `throwsDuringInit`) is swallowed by running `_reset`. -/
def connectionOnOpen (ackResult : PublicationItem → Bool)
    (joinEvents : List PublicationItem) (sessionId : String)
    (throwsDuringInit : Bool) (st : WampBindingState) :
    WampBindingState × List StateNotification :=
  if throwsDuringInit then
    let r := _reset { st with sessionIdLogItem := "[" ++ sessionId ++ "] " }
    (r.1, StateNotification.online :: r.2)
  else
    let queued := addJoinEventsAtFront joinEvents st.pendingPublicationItems
    let drained := _drainPublications ackResult true queued st.isPublishingDeferred
    ({ st with
        sessionIdLogItem := "[" ++ sessionId ++ "] "
        pendingPublicationItems := drained.1
        isPublishingDeferred := drained.2.1 },
     [StateNotification.online])

end WampBinding

namespace WampBinding

/-- Sample publication item used in concrete instantiations. -/
def wPub1 : PublicationItem :=
  { topic := "coaty.1.ns.ADV.s1", payload := "d1", isKwargsPayload := true, options := none }

/-- Sample publication item whose publish requires a router acknowledgment. -/
def wPub2 : PublicationItem :=
  { topic := "coaty.1.ns.DAD.s1", payload := "d2", isKwargsPayload := true,
    options := some { retain := false, acknowledge := true } }

/-- Sample publication item used in concrete instantiations. -/
def wPub3 : PublicationItem :=
  { topic := "coaty.1.ns.CHN.s1", payload := "d3", isKwargsPayload := false, options := none }

/-- Sample publication item used in concrete instantiations. -/
def wPub4 : PublicationItem :=
  { topic := "coaty.1.ns.UPDx.s1", payload := "d4", isKwargsPayload := true, options := none }

/-- Acknowledgment outcome that rejects exactly the second sample item. -/
def wAckFailSecond : PublicationItem → Bool :=
  fun i => decide (i.topic ≠ "coaty.1.ns.DAD.s1")

/-- Sample subscription item with a live handle. -/
def wSub1 : SubscriptionItem :=
  { eventType := CommunicationEventType.Advertise, topic := "coaty.1..ADV.",
    matchMode := "wildcard", isKwargsPayload := true, subscription := some 7 }

/-- Sample subscription item without a live handle. -/
def wSub2 : SubscriptionItem :=
  { eventType := CommunicationEventType.Advertise, topic := "coaty.1..ADV.",
    matchMode := "wildcard", isKwargsPayload := true, subscription := none }

/-- Sample binding state with one queued publication and one issued
subscription, as left by a session that has published and subscribed. -/
def wState : WampBindingState :=
  { pendingPublicationItems := [wPub1], issuedSubscriptionItems := [wSub1],
    isPublishingDeferred := true, sessionIdLogItem := "[42] ",
    hasConnection := true, hasJoinOptions := true }

end WampBinding
namespace WampTopic

theorem ws_round_all : WHITESPACE_CHARS.all wsRoundOk = true := by decide

theorem decode_encodeChar (c : Char) (hc : c ≠ nulChar) (rest : List Char) :
    _decodeTopicComponent (encodeChar c ++ rest) = c :: _decodeTopicComponent rest := by
  by_cases hdot : c = '.'
  · subst hdot
    simp only [encodeChar, if_pos rfl]
    cases rest <;> simp [_decodeTopicComponent, nulChar, isRegexDotChar]
  · by_cases hws : WHITESPACE_CHARS.contains c
    · have hmem : c ∈ WHITESPACE_CHARS := by simpa using hws
      have hok : wsRoundOk c = true :=
        (List.all_eq_true.mp ws_round_all) c hmem
      simp only [wsRoundOk, Bool.and_eq_true, decide_eq_true_eq] at hok
      obtain ⟨⟨⟨⟨he, h1⟩, h2⟩, h3⟩, h4⟩ := hok
      rw [he]
      set d1 := (encodeChar c).getD 1 ' ' with hd1
      set d2 := (encodeChar c).getD 2 ' ' with hd2
      cases rest with
      | nil =>
        simp only [List.cons_append, List.nil_append, _decodeTopicComponent]
        rw [if_pos (by simp [h1, h2, nulChar]), if_neg h3, h4]
        simp [_decodeTopicComponent]
      | cons x xs =>
        simp only [List.cons_append, List.nil_append, _decodeTopicComponent]
        rw [if_pos (by simp [h1, h2, nulChar]), if_neg h3, h4]
        simp
    · have hmem : c ∉ WHITESPACE_CHARS := by simpa using hws
      have : encodeChar c = [c] := by
        simp [encodeChar, hdot, hws, hmem]
      rw [this]
      cases rest with
      | nil => simp [_decodeTopicComponent]
      | cons x xs =>
        cases xs with
        | nil => simp [_decodeTopicComponent]
        | cons y ys =>
          simp only [List.cons_append, List.nil_append, _decodeTopicComponent]
          rw [if_neg (by simp [hc])]

theorem decode_encode (s : List Char) (h : nulChar ∉ s) :
    _decodeTopicComponent (_encodeTopicComponent s) = s := by
  induction s with
  | nil => rfl
  | cons c rest ih =>
    have hc : c ≠ nulChar := by
      intro hh
      exact h (hh ▸ List.mem_cons_self c rest)
    have hrest : nulChar ∉ rest := fun hh => h (List.mem_cons_of_mem c hh)
    simp only [_encodeTopicComponent]
    rw [decode_encodeChar c hc, ih hrest]

theorem ws_code_all : WHITESPACE_CHARS.all wsCodeOk = true := by decide

theorem encodeChar_chars (c : Char) :
    ∀ x ∈ encodeChar c, x ≠ '.' ∧ x ∉ WHITESPACE_CHARS ∧ (x = '#' → c = '#') := by
  intro x hx
  by_cases hdot : c = '.'
  · subst hdot
    simp only [encodeChar, if_pos rfl] at hx
    have : x = nulChar := by simpa using hx
    subst this
    refine ⟨by decide, by decide, by decide⟩
  · by_cases hws : WHITESPACE_CHARS.contains c
    · have hmem : c ∈ WHITESPACE_CHARS := by simpa using hws
      have hok : wsCodeOk c = true := (List.all_eq_true.mp ws_code_all) c hmem
      have := (List.all_eq_true.mp hok) x hx
      simp only [Bool.and_eq_true, decide_eq_true_eq] at this
      exact ⟨this.1.1, this.1.2, fun hh => absurd hh this.2⟩
    · have hmem : c ∉ WHITESPACE_CHARS := by simpa using hws
      have : encodeChar c = [c] := by simp [encodeChar, hdot, hws, hmem]
      rw [this] at hx
      have hxc : x = c := by simpa using hx
      subst hxc
      exact ⟨hdot, hmem, fun hh => hh⟩

theorem encode_chars (s : List Char) :
    ∀ x ∈ _encodeTopicComponent s, x ≠ '.' ∧ x ∉ WHITESPACE_CHARS ∧ (x = '#' → '#' ∈ s) := by
  induction s with
  | nil => intro x hx; cases hx
  | cons c rest ih =>
    intro x hx
    simp only [_encodeTopicComponent, List.mem_append] at hx
    rcases hx with hx | hx
    · obtain ⟨h1, h2, h3⟩ := encodeChar_chars c x hx
      exact ⟨h1, h2, fun hh => (h3 hh) ▸ List.mem_cons_self c rest⟩
    · obtain ⟨h1, h2, h3⟩ := ih x hx
      exact ⟨h1, h2, fun hh => List.mem_cons_of_mem c (h3 hh)⟩

theorem encode_dotfree (s : List Char) : '.' ∉ _encodeTopicComponent s := by
  intro hmem
  exact (encode_chars s '.' hmem).1 rfl

theorem splitOnDot_cons_append (a : List Char) (b : List Char) (h : '.' ∉ a) :
    splitOnDot (a ++ '.' :: b) = a :: splitOnDot b := by
  induction a with
  | nil => simp [splitOnDot]
  | cons c a2 ih =>
    have hc : c ≠ '.' := fun hh => h (hh ▸ List.mem_cons_self c a2)
    have ha2 : '.' ∉ a2 := fun hh => h (List.mem_cons_of_mem c hh)
    simp only [List.cons_append, splitOnDot, if_neg hc, List.append_eq, ih ha2]

theorem splitOnDot_dotfree (a : List Char) (h : '.' ∉ a) : splitOnDot a = [a] := by
  induction a with
  | nil => rfl
  | cons c a2 ih =>
    have hc : c ≠ '.' := fun hh => h (hh ▸ List.mem_cons_self c a2)
    have ha2 : '.' ∉ a2 := fun hh => h (List.mem_cons_of_mem c hh)
    simp only [splitOnDot, if_neg hc, ih ha2]

theorem digitChar_props (d : Nat) (h : d < 10) :
    isAsciiDigit (digitChar d) = true ∧ (digitChar d).toNat - 48 = d := by
  interval_cases d <;> exact ⟨by decide, by decide⟩

theorem natToCharsAux_spec (fuel : Nat) :
    ∀ n, n < fuel →
      natToCharsAux fuel n ≠ [] ∧
      (∀ c ∈ natToCharsAux fuel n, isAsciiDigit c = true) ∧
      (natToCharsAux fuel n).foldl (fun acc c => 10 * acc + (c.toNat - 48)) 0 = n := by
  induction fuel with
  | zero => intro n hn; omega
  | succ fuel ih =>
    intro n hn
    by_cases hsmall : n < 10
    · simp only [natToCharsAux, if_pos hsmall]
      obtain ⟨hd, hv⟩ := digitChar_props n hsmall
      refine ⟨by simp, ?_, ?_⟩
      · intro c hc
        have : c = digitChar n := by simpa using hc
        simpa [this] using hd
      · simp [List.foldl, hv]
    · simp only [natToCharsAux, if_neg hsmall]
      have hdiv : n / 10 < fuel := by omega
      obtain ⟨hne, hdig, hval⟩ := ih (n / 10) hdiv
      have hm : n % 10 < 10 := Nat.mod_lt _ (by omega)
      obtain ⟨hd, hv⟩ := digitChar_props (n % 10) hm
      refine ⟨by simp, ?_, ?_⟩
      · intro c hc
        rcases List.mem_append.mp hc with hc | hc
        · exact hdig c hc
        · have : c = digitChar (n % 10) := by simpa using hc
          simpa [this] using hd
      · rw [List.foldl_append]
        simp only [List.foldl, hval, hv]
        omega

theorem parseInt10_natToChars (n : Nat) : parseInt10 (natToChars n) = some n := by
  obtain ⟨hne, hdig, hval⟩ := natToCharsAux_spec (n + 1) n (by omega)
  have htake : (natToCharsAux (n + 1) n).takeWhile isAsciiDigit = natToCharsAux (n + 1) n :=
    List.takeWhile_eq_self_iff.mpr hdig
  simp only [parseInt10, natToChars, htake, if_neg hne, hval]

theorem natToChars_dotfree (n : Nat) : '.' ∉ natToChars n := by
  intro hmem
  have := (natToCharsAux_spec (n + 1) n (by omega)).2.1 '.' hmem
  simp [isAsciiDigit] at this

end WampTopic
namespace WampTopic

theorem eventComp_len (et : CommunicationEventType) :
    (_getEventTopicComponentFor et).length = 3 := by
  cases et <;> rfl

theorem eventComp_dotfree (et : CommunicationEventType) :
    '.' ∉ _getEventTopicComponentFor et := by
  cases et <;> decide

theorem getEventType_comp (et : CommunicationEventType) :
    _getEventType (_getEventTopicComponentFor et) = some et := by
  cases et <;> rfl

theorem protocolName_dotfree : '.' ∉ protocolName := by decide

theorem encodeChar_ne_nil (c : Char) : encodeChar c ≠ [] := by
  by_cases hdot : c = '.'
  · simp [encodeChar, hdot]
  · by_cases hws : WHITESPACE_CHARS.contains c
    · simp only [encodeChar, if_neg hdot, if_pos hws]
      cases h : wsEncode c <;> simp
    · have hmem : c ∉ WHITESPACE_CHARS := by simpa using hws
      simp [encodeChar, hdot, hmem]

theorem encode_ne_nil (s : List Char) (h : s ≠ []) : _encodeTopicComponent s ≠ [] := by
  cases s with
  | nil => exact absurd rfl h
  | cons x t =>
    intro hh
    simp only [_encodeTopicComponent] at hh
    rw [List.append_eq_nil] at hh
    exact encodeChar_ne_nil x hh.1

theorem isPrefixOf_self_append (a r : List Char) : a.isPrefixOf (a ++ r) = true := by
  induction a with
  | nil => simp [List.isPrefixOf]
  | cons x xs ih => simp [List.isPrefixOf, ih]

theorem isCoatyTopicLike_append (r : List Char) :
    isCoatyTopicLike (protocolName ++ '.' :: r) = true := by
  have h : protocolName ++ '.' :: r = protocolNameDot ++ r := by
    simp [protocolNameDot]
  rw [isCoatyTopicLike, h]
  exact isPrefixOf_self_append protocolNameDot r

theorem parseEvent_bare (et : CommunicationEventType) :
    _parseEvent (_getEventTopicComponentFor et) = (some et, none) := by
  have h : decide ((_getEventTopicComponentFor et).length > 3) = false := by
    rw [eventComp_len et]
    decide
  simp [_parseEvent, h, getEventType_comp]

theorem parseEvent_with_filter (et : CommunicationEventType) (e : List Char) (he : e ≠ []) :
    _parseEvent (_getEventTopicComponentFor et ++ e) = (some et, some e) := by
  have hlen := eventComp_len et
  have hgt : (_getEventTopicComponentFor et ++ e).length > 3 := by
    rw [List.length_append, hlen]
    cases e with
    | nil => exact absurd rfl he
    | cons x t => simp
  have h : decide ((_getEventTopicComponentFor et ++ e).length > 3) = true :=
    decide_eq_true hgt
  have htake : (_getEventTopicComponentFor et ++ e).take 3 = _getEventTopicComponentFor et := by
    rw [← hlen]
    exact List.take_left _ _
  have hdropE : (_getEventTopicComponentFor et ++ e).drop 3 = e := by
    rw [← hlen]
    exact List.drop_left _ _
  have hgt2 : 3 < (_getEventTopicComponentFor et).length + e.length := by
    rw [List.length_append] at hgt
    exact hgt
  simp [_parseEvent, h, hgt2, htake, hdropE, getEventType_comp]

theorem createByName_cons (t V NS EV SRC : List Char) (rest : List (List Char))
    (hlike : isCoatyTopicLike t = true)
    (hsplit : splitOnDot t = protocolName :: V :: NS :: EV :: SRC :: rest) :
    createByName t = some {
      version := parseInt10 V
      namespaceC := _decodeTopicComponent NS
      eventType := (_parseEvent EV).1
      eventTypeFilter := ((_parseEvent EV).2).map _decodeTopicComponent
      sourceId := SRC
      correlationId :=
        match rest with
        | [] => none
        | c :: _ => if c = [] then none else some c } := by
  simp only [createByName, hlike, hsplit]
  cases rest <;> simp

theorem createByName_getTopicName (v : Nat) (ns : List Char)
    (et : CommunicationEventType) (f : Option (List Char)) (src : List Char)
    (cid : Option (List Char))
    (hns : nulChar ∉ ns)
    (hf : f = none ∨ ∃ g, f = some g ∧ g ≠ [] ∧ nulChar ∉ g)
    (hsrc : '.' ∉ src)
    (hcid1 : _isOneWayEvent et = true → cid = none)
    (hcid2 : _isOneWayEvent et = false → ∃ c, cid = some c ∧ c ≠ [] ∧ '.' ∉ c) :
    createByName (getTopicName v ns et f src cid) =
      some { version := some v, namespaceC := ns, eventType := some et,
             eventTypeFilter := f, sourceId := src, correlationId := cid } := by
  have hV : '.' ∉ natToChars v := natToChars_dotfree v
  have hNS : '.' ∉ _encodeTopicComponent ns := encode_dotfree ns
  rcases hf with hf | ⟨g, hf, hg, hgnul⟩ <;> subst hf
  · -- no event filter: the event component is the bare three-letter code
    cases how : _isOneWayEvent et
    case true =>
      rw [hcid1 how]
      have htopic : getTopicName v ns et none src none =
          protocolName ++ '.' :: (natToChars v ++ '.' :: (_encodeTopicComponent ns ++
            '.' :: (_getEventTopicComponentFor et ++ '.' :: src))) := by
        simp [getTopicName, how]
      have hsplit : splitOnDot (protocolName ++ '.' :: (natToChars v ++ '.' ::
          (_encodeTopicComponent ns ++ '.' :: (_getEventTopicComponentFor et ++ '.' :: src)))) =
          protocolName :: natToChars v :: _encodeTopicComponent ns ::
            _getEventTopicComponentFor et :: src :: [] := by
        rw [splitOnDot_cons_append _ _ protocolName_dotfree,
            splitOnDot_cons_append _ _ hV,
            splitOnDot_cons_append _ _ hNS,
            splitOnDot_cons_append _ _ (eventComp_dotfree et),
            splitOnDot_dotfree _ hsrc]
      rw [htopic, createByName_cons _ _ _ _ _ _ (isCoatyTopicLike_append _) hsplit]
      simp [parseInt10_natToChars, decode_encode ns hns, parseEvent_bare]
    case false =>
      obtain ⟨c, hc, hcne, hcdot⟩ := hcid2 how
      subst hc
      have htopic : getTopicName v ns et none src (some c) =
          protocolName ++ '.' :: (natToChars v ++ '.' :: (_encodeTopicComponent ns ++
            '.' :: (_getEventTopicComponentFor et ++ '.' :: (src ++ '.' :: c)))) := by
        simp [getTopicName, how, List.append_assoc]
      have hsplit : splitOnDot (protocolName ++ '.' :: (natToChars v ++ '.' ::
          (_encodeTopicComponent ns ++ '.' :: (_getEventTopicComponentFor et ++
            '.' :: (src ++ '.' :: c))))) =
          protocolName :: natToChars v :: _encodeTopicComponent ns ::
            _getEventTopicComponentFor et :: src :: [c] := by
        rw [splitOnDot_cons_append _ _ protocolName_dotfree,
            splitOnDot_cons_append _ _ hV,
            splitOnDot_cons_append _ _ hNS,
            splitOnDot_cons_append _ _ (eventComp_dotfree et),
            splitOnDot_cons_append _ _ hsrc,
            splitOnDot_dotfree _ hcdot]
      rw [htopic, createByName_cons _ _ _ _ _ _ (isCoatyTopicLike_append _) hsplit]
      simp [parseInt10_natToChars, decode_encode ns hns, parseEvent_bare, hcne]
  · -- with event filter: the event component is the code plus the encoded filter
    have hEnc : _encodeTopicComponent g ≠ [] := encode_ne_nil g hg
    have hEVdot : '.' ∉ _getEventTopicComponentFor et ++ _encodeTopicComponent g := by
      intro hmem
      rcases List.mem_append.mp hmem with hmem | hmem
      · exact eventComp_dotfree et hmem
      · exact encode_dotfree g hmem
    cases how : _isOneWayEvent et
    case true =>
      rw [hcid1 how]
      have htopic : getTopicName v ns et (some g) src none =
          protocolName ++ '.' :: (natToChars v ++ '.' :: (_encodeTopicComponent ns ++
            '.' :: ((_getEventTopicComponentFor et ++ _encodeTopicComponent g) ++
              '.' :: src))) := by
        simp [getTopicName, how, hg, List.append_assoc]
      have hsplit : splitOnDot (protocolName ++ '.' :: (natToChars v ++ '.' ::
          (_encodeTopicComponent ns ++ '.' :: ((_getEventTopicComponentFor et ++
            _encodeTopicComponent g) ++ '.' :: src)))) =
          protocolName :: natToChars v :: _encodeTopicComponent ns ::
            (_getEventTopicComponentFor et ++ _encodeTopicComponent g) :: src :: [] := by
        rw [splitOnDot_cons_append _ _ protocolName_dotfree,
            splitOnDot_cons_append _ _ hV,
            splitOnDot_cons_append _ _ hNS,
            splitOnDot_cons_append _ _ hEVdot,
            splitOnDot_dotfree _ hsrc]
      rw [htopic, createByName_cons _ _ _ _ _ _ (isCoatyTopicLike_append _) hsplit]
      simp [parseInt10_natToChars, decode_encode ns hns,
        parseEvent_with_filter et _ hEnc, decode_encode g hgnul]
    case false =>
      obtain ⟨c, hc, hcne, hcdot⟩ := hcid2 how
      subst hc
      have htopic : getTopicName v ns et (some g) src (some c) =
          protocolName ++ '.' :: (natToChars v ++ '.' :: (_encodeTopicComponent ns ++
            '.' :: ((_getEventTopicComponentFor et ++ _encodeTopicComponent g) ++
              '.' :: (src ++ '.' :: c)))) := by
        simp [getTopicName, how, hg, List.append_assoc]
      have hsplit : splitOnDot (protocolName ++ '.' :: (natToChars v ++ '.' ::
          (_encodeTopicComponent ns ++ '.' :: ((_getEventTopicComponentFor et ++
            _encodeTopicComponent g) ++ '.' :: (src ++ '.' :: c))))) =
          protocolName :: natToChars v :: _encodeTopicComponent ns ::
            (_getEventTopicComponentFor et ++ _encodeTopicComponent g) :: src :: [c] := by
        rw [splitOnDot_cons_append _ _ protocolName_dotfree,
            splitOnDot_cons_append _ _ hV,
            splitOnDot_cons_append _ _ hNS,
            splitOnDot_cons_append _ _ hEVdot,
            splitOnDot_cons_append _ _ hsrc,
            splitOnDot_dotfree _ hcdot]
      rw [htopic, createByName_cons _ _ _ _ _ _ (isCoatyTopicLike_append _) hsplit]
      simp [parseInt10_natToChars, decode_encode ns hns,
        parseEvent_with_filter et _ hEnc, decode_encode g hgnul, hcne]

end WampTopic
namespace WampBinding

theorem addPub_back (q : List PublicationItem) (item : PublicationItem) :
    _addPublicationItem q item false false = q ++ [item] := by
  simp [_addPublicationItem]

theorem addPub_front_new (q : List PublicationItem) (item : PublicationItem)
    (h : ∀ i ∈ q, i.topic ≠ item.topic) :
    _addPublicationItem q item true true = item :: q := by
  have hany : q.any (fun i => decide (i.topic = item.topic)) = false := by
    rw [List.any_eq_false]
    intro i hi
    simp [h i hi]
  simp [_addPublicationItem, hany]

theorem addPub_dup (q : List PublicationItem) (item : PublicationItem)
    (h : ∃ i ∈ q, i.topic = item.topic) (first : Bool) :
    _addPublicationItem q item first true = q := by
  have hany : q.any (fun i => decide (i.topic = item.topic)) = true := by
    rw [List.any_eq_true]
    obtain ⟨i, hi, ht⟩ := h
    exact ⟨i, hi, by simpa using ht⟩
  simp [_addPublicationItem, hany]

theorem doDrain_all_success (ackResult : PublicationItem → Bool)
    (l : List PublicationItem) (h : ∀ i ∈ l, ackResult i = true) :
    _doDrainPublications ackResult true l = ([], true, l) := by
  induction l with
  | nil => rfl
  | cons item rest ih =>
    have hi := h item (List.mem_cons_self item rest)
    have hrest : ∀ i ∈ rest, ackResult i = true :=
      fun i hm => h i (List.mem_cons_of_mem item hm)
    by_cases hack : itemAcknowledge item
    · simp [_doDrainPublications, hack, hi, ih hrest]
    · simp [_doDrainPublications, hack, ih hrest]

theorem doDrain_fail_retention (ackResult : PublicationItem → Bool)
    (pre : List PublicationItem) (x : PublicationItem) (post : List PublicationItem)
    (hpre : ∀ i ∈ pre, ackResult i = true)
    (hack : itemAcknowledge x = true) (hfail : ackResult x = false) :
    _doDrainPublications ackResult true (pre ++ x :: post) = (x :: post, true, pre) := by
  induction pre with
  | nil => simp [_doDrainPublications, hack, hfail]
  | cons p ps ih =>
    have hp := hpre p (List.mem_cons_self p ps)
    have hps : ∀ i ∈ ps, ackResult i = true :=
      fun i hm => hpre i (List.mem_cons_of_mem p hm)
    by_cases hackp : itemAcknowledge p
    · simp [_doDrainPublications, hackp, hp, ih hps]
    · simp [_doDrainPublications, hackp, ih hps]

theorem addJoin_all_new (js q : List PublicationItem)
    (hdist : js.Pairwise (fun a b => a.topic ≠ b.topic))
    (hq : ∀ e ∈ js, ∀ p ∈ q, p.topic ≠ e.topic) :
    addJoinEventsAtFront js q = js ++ q := by
  induction js with
  | nil => rfl
  | cons e rest ih =>
    rw [List.pairwise_cons] at hdist
    have hrest : ∀ x ∈ rest, ∀ p ∈ q, p.topic ≠ x.topic :=
      fun x hx p hp => hq x (List.mem_cons_of_mem e hx) p hp
    simp only [addJoinEventsAtFront]
    rw [ih hdist.2 hrest, addPub_front_new]
    · rfl
    · intro i hi
      rcases List.mem_append.mp hi with hm | hm
      · exact fun hh => hdist.1 i hm hh.symm
      · exact hq e (List.mem_cons_self e rest) i hm

theorem subPred_self (item : SubscriptionItem) :
    _subscriptionItemPredicate item.eventType item.topic item.matchMode item = true := by
  simp [_subscriptionItemPredicate]

theorem subPred_congr (x item : SubscriptionItem)
    (h : _subscriptionItemPredicate item.eventType item.topic item.matchMode x = true)
    (et : CommunicationEventType) (t m : String) :
    _subscriptionItemPredicate et t m x = _subscriptionItemPredicate et t m item := by
  simp only [_subscriptionItemPredicate, Bool.and_eq_true, decide_eq_true_eq] at h
  obtain ⟨⟨h1, h2⟩, h3⟩ := h
  simp [_subscriptionItemPredicate, h1, h2, h3]

theorem addSub_cons_pos (x : SubscriptionItem) (xs : List SubscriptionItem)
    (item : SubscriptionItem)
    (h : _subscriptionItemPredicate item.eventType item.topic item.matchMode x = true) :
    _addSubscriptionItem (x :: xs) item = (item :: xs, some x) := by
  simp [_addSubscriptionItem, List.findIdx?_cons, h]

theorem addSub_cons_neg (x : SubscriptionItem) (xs : List SubscriptionItem)
    (item : SubscriptionItem)
    (h : _subscriptionItemPredicate item.eventType item.topic item.matchMode x = false) :
    _addSubscriptionItem (x :: xs) item =
      (x :: (_addSubscriptionItem xs item).1, (_addSubscriptionItem xs item).2) := by
  simp only [_addSubscriptionItem, List.findIdx?_cons, h, Bool.false_eq_true, if_false]
  rw [show (1 : Nat) = 0 + 1 from rfl, List.findIdx?_succ]
  cases hfind : xs.findIdx?
      (_subscriptionItemPredicate item.eventType item.topic item.matchMode) with
  | none => simp
  | some j => simp

theorem removeSub_cons_pos (x : SubscriptionItem) (xs : List SubscriptionItem)
    (et : CommunicationEventType) (t m : String)
    (h : _subscriptionItemPredicate et t m x = true) :
    _removeSubscriptionItem (x :: xs) et t m = (xs, some x) := by
  simp [_removeSubscriptionItem, List.findIdx?_cons, h]

theorem removeSub_cons_neg (x : SubscriptionItem) (xs : List SubscriptionItem)
    (et : CommunicationEventType) (t m : String)
    (h : _subscriptionItemPredicate et t m x = false) :
    _removeSubscriptionItem (x :: xs) et t m =
      (x :: (_removeSubscriptionItem xs et t m).1, (_removeSubscriptionItem xs et t m).2) := by
  simp only [_removeSubscriptionItem, List.findIdx?_cons, h, Bool.false_eq_true, if_false]
  rw [show (1 : Nat) = 0 + 1 from rfl, List.findIdx?_succ]
  cases hfind : xs.findIdx? (_subscriptionItemPredicate et t m) with
  | none => simp
  | some j => simp

theorem addSub_fst_count_self (l : List SubscriptionItem) (item : SubscriptionItem)
    (hinv : desiredCount l item.eventType item.topic item.matchMode ≤ 1) :
    desiredCount (_addSubscriptionItem l item).1 item.eventType item.topic item.matchMode = 1 := by
  induction l with
  | nil => simp [_addSubscriptionItem, desiredCount, subPred_self]
  | cons x xs ih =>
    by_cases hx : _subscriptionItemPredicate item.eventType item.topic item.matchMode x = true
    · rw [addSub_cons_pos x xs item hx]
      simp only [desiredCount, List.filter_cons, hx, if_true, subPred_self,
        List.length_cons] at hinv ⊢
      omega
    · have hx2 : _subscriptionItemPredicate item.eventType item.topic item.matchMode x = false :=
        by simpa using hx
      rw [addSub_cons_neg x xs item hx2]
      simp only [desiredCount, List.filter_cons, hx2, Bool.false_eq_true,
        if_false] at hinv ⊢
      exact ih hinv

theorem addSub_fst_count_other (l : List SubscriptionItem) (item : SubscriptionItem)
    (et : CommunicationEventType) (t m : String)
    (hother : _subscriptionItemPredicate et t m item = false) :
    desiredCount (_addSubscriptionItem l item).1 et t m = desiredCount l et t m := by
  induction l with
  | nil => simp [_addSubscriptionItem, desiredCount, hother]
  | cons x xs ih =>
    by_cases hx : _subscriptionItemPredicate item.eventType item.topic item.matchMode x = true
    · rw [addSub_cons_pos x xs item hx]
      have hqx : _subscriptionItemPredicate et t m x = false := by
        rw [subPred_congr x item hx et t m]
        exact hother
      simp [desiredCount, List.filter_cons, hother, hqx]
    · have hx2 : _subscriptionItemPredicate item.eventType item.topic item.matchMode x = false :=
        by simpa using hx
      rw [addSub_cons_neg x xs item hx2]
      by_cases hqx : _subscriptionItemPredicate et t m x = true
      · simp only [desiredCount] at ih
        simp only [desiredCount, List.filter_cons, hqx, if_true, List.length_cons, ih]
      · have hqx2 : _subscriptionItemPredicate et t m x = false := by simpa using hqx
        simp only [desiredCount, List.filter_cons, hqx2, Bool.false_eq_true, if_false] at ih ⊢
        exact ih

theorem addSub_preserves_inv (l : List SubscriptionItem) (item : SubscriptionItem)
    (hinv : ∀ a b c, desiredCount l a b c ≤ 1) :
    ∀ a b c, desiredCount (_addSubscriptionItem l item).1 a b c ≤ 1 := by
  intro a b c
  by_cases hq : _subscriptionItemPredicate a b c item = true
  · simp only [_subscriptionItemPredicate, Bool.and_eq_true, decide_eq_true_eq] at hq
    obtain ⟨⟨h1, h2⟩, h3⟩ := hq
    subst h1; subst h2; subst h3
    rw [addSub_fst_count_self l item (hinv _ _ _)]
  · have hq2 : _subscriptionItemPredicate a b c item = false := by simpa using hq
    rw [addSub_fst_count_other l item a b c hq2]
    exact hinv a b c

theorem removeSub_count_le (l : List SubscriptionItem)
    (et : CommunicationEventType) (t m : String)
    (a : CommunicationEventType) (b c : String) :
    desiredCount (_removeSubscriptionItem l et t m).1 a b c ≤ desiredCount l a b c := by
  induction l with
  | nil => simp [_removeSubscriptionItem, desiredCount]
  | cons x xs ih =>
    by_cases hx : _subscriptionItemPredicate et t m x = true
    · rw [removeSub_cons_pos x xs et t m hx]
      by_cases hqx : _subscriptionItemPredicate a b c x = true
      · simp [desiredCount, List.filter_cons, hqx]
      · have hqx2 : _subscriptionItemPredicate a b c x = false := by simpa using hqx
        simp [desiredCount, List.filter_cons, hqx2]
    · have hx2 : _subscriptionItemPredicate et t m x = false := by simpa using hx
      rw [removeSub_cons_neg x xs et t m hx2]
      by_cases hqx : _subscriptionItemPredicate a b c x = true
      · simp only [desiredCount] at ih
        simp only [desiredCount, List.filter_cons, hqx, if_true, List.length_cons]
        omega
      · have hqx2 : _subscriptionItemPredicate a b c x = false := by simpa using hqx
        simp only [desiredCount, List.filter_cons, hqx2, Bool.false_eq_true, if_false]
        exact ih

theorem addSub_snd_find (l : List SubscriptionItem) (item : SubscriptionItem) :
    (_addSubscriptionItem l item).2 =
      l.find? (_subscriptionItemPredicate item.eventType item.topic item.matchMode) := by
  induction l with
  | nil => rfl
  | cons x xs ih =>
    by_cases hx : _subscriptionItemPredicate item.eventType item.topic item.matchMode x = true
    · rw [addSub_cons_pos x xs item hx, List.find?_cons_of_pos _ hx]
    · have hx2 : _subscriptionItemPredicate item.eventType item.topic item.matchMode x = false :=
        by simpa using hx
      rw [addSub_cons_neg x xs item hx2, List.find?_cons_of_neg _ (by simp [hx2])]
      exact ih

theorem find?_addSub_self (l : List SubscriptionItem) (item : SubscriptionItem) :
    ((_addSubscriptionItem l item).1).find?
      (_subscriptionItemPredicate item.eventType item.topic item.matchMode) = some item := by
  induction l with
  | nil =>
    simp [_addSubscriptionItem, List.find?_cons_of_pos, subPred_self]
  | cons x xs ih =>
    by_cases hx : _subscriptionItemPredicate item.eventType item.topic item.matchMode x = true
    · rw [addSub_cons_pos x xs item hx]
      exact List.find?_cons_of_pos _ (subPred_self item)
    · have hx2 : _subscriptionItemPredicate item.eventType item.topic item.matchMode x = false :=
        by simpa using hx
      rw [addSub_cons_neg x xs item hx2]
      rw [List.find?_cons_of_neg _ (by simp [hx2])]
      exact ih

end WampBinding
namespace WampTopic

/-- C3: for every string without NUL, decoding the encoding gives the string
back, and the concrete dot vector of the claim holds: the encoding of
"x.y" is "x" followed by three NULs and "y", which decodes back to "x.y". -/
theorem c3_component_codec_roundtrip (s : List Char) (h : nulChar ∉ s) :
    _decodeTopicComponent (_encodeTopicComponent s) = s ∧
    _encodeTopicComponent "x.y".data = "x\x00\x00\x00y".data ∧
    _decodeTopicComponent "x\x00\x00\x00y".data = "x.y".data :=
  ⟨decode_encode s h, by decide, by decide⟩

theorem c3_witness :
    _decodeTopicComponent (_encodeTopicComponent "a.b c".data) = "a.b c".data ∧
    _encodeTopicComponent "x.y".data = "x\x00\x00\x00y".data :=
  ⟨(c3_component_codec_roundtrip "a.b c".data (by decide)).1,
   (c3_component_codec_roundtrip "a.b c".data (by decide)).2.1⟩

/-- C4: decoding the encoded publication topic of a valid descriptor
(positive version, NUL-free namespace, absent or non-empty NUL-free event
filter, dot-free source id, and a non-empty dot-free correlation id exactly
for two-way kinds) reconstructs every component of the descriptor. -/
theorem c4_publication_topic_roundtrip (v : Nat) (ns : List Char)
    (et : CommunicationEventType) (f : Option (List Char)) (src : List Char)
    (cid : Option (List Char))
    (_hv : 0 < v)
    (hns : nulChar ∉ ns)
    (hf : f = none ∨ ∃ g, f = some g ∧ g ≠ [] ∧ nulChar ∉ g)
    (hsrc : '.' ∉ src)
    (hcid1 : _isOneWayEvent et = true → cid = none)
    (hcid2 : _isOneWayEvent et = false → ∃ c, cid = some c ∧ c ≠ [] ∧ '.' ∉ c) :
    createByName (getTopicName v ns et f src cid) =
      some { version := some v, namespaceC := ns, eventType := some et,
             eventTypeFilter := f, sourceId := src, correlationId := cid } :=
  createByName_getTopicName v ns et f src cid hns hf hsrc hcid1 hcid2

theorem c4_witness :
    createByName (getTopicName 1 "my ns".data CommunicationEventType.Resolve
        (some "fil.ter".data) "source1".data (some "corr1".data)) =
      some { version := some 1, namespaceC := "my ns".data,
             eventType := some CommunicationEventType.Resolve,
             eventTypeFilter := some "fil.ter".data, sourceId := "source1".data,
             correlationId := some "corr1".data } :=
  c4_publication_topic_roundtrip 1 "my ns".data CommunicationEventType.Resolve
    (some "fil.ter".data) "source1".data (some "corr1".data)
    (by decide) (by decide)
    (Or.inr ⟨"fil.ter".data, rfl, by decide, by decide⟩)
    (by decide)
    (fun h => absurd h (by decide))
    (fun _ => ⟨"corr1".data, rfl, by decide, by decide⟩)

/-- C2 (counterexample): for the two-way response kind Resolve, supplying
the non-empty event filter "foo" is not rejected: `getTopicFilter` returns
a subscription pattern, and that pattern carries the event filter segment
"RSVfoo". -/
theorem c2_response_filter_counterexample :
    getTopicFilter 1 (some "n".data) CommunicationEventType.Resolve (some "foo".data)
        (some "c".data) = "coaty.1.n.RSVfoo..c".data ∧
    splitOnDot "coaty.1.n.RSVfoo..c".data =
      ["coaty".data, "1".data, "n".data, "RSVfoo".data, [], "c".data] := by
  decide

/-- C2 (amended): for every two-way response kind (Resolve, Retrieve,
Complete, Return), a supplied non-empty event filter is not rejected:
`getTopicFilter` produces a pattern whose event segment (segment index 3)
is the three-letter event code followed by the encoded filter, the same
treatment as for request kinds. -/
theorem c2_response_filter_not_rejected (v : Nat) (nsOpt : Option (List Char))
    (et : CommunicationEventType) (f : List Char) (cid : Option (List Char))
    (het : et = CommunicationEventType.Resolve ∨ et = CommunicationEventType.Retrieve ∨
      et = CommunicationEventType.Complete ∨ et = CommunicationEventType.Return)
    (hf : f ≠ []) :
    (splitOnDot (getTopicFilter v nsOpt et (some f) cid)).get? 3 =
      some (_getEventTopicComponentFor et ++ _encodeTopicComponent f) := by
  have how : _isOneWayEvent et = false := by
    rcases het with h | h | h | h <;> subst h <;> decide
  have hEV : '.' ∉ _getEventTopicComponentFor et ++ _encodeTopicComponent f := by
    intro hmem
    rcases List.mem_append.mp hmem with hm | hm
    · exact eventComp_dotfree et hm
    · exact encode_dotfree f hm
  have hNSdot : '.' ∉ namespaceComponentOf nsOpt := by
    cases nsOpt with
    | none => simp [namespaceComponentOf]
    | some ns =>
      by_cases hn : ns = []
      · simp [namespaceComponentOf, hn]
      · simpa [namespaceComponentOf, hn] using encode_dotfree ns
  obtain ⟨Y, hY⟩ : ∃ Y, correlationComponentOf cid = '.' :: Y := by
    cases cid with
    | none => exact ⟨[], rfl⟩
    | some c =>
      by_cases hc : c = []
      · exact ⟨[], by simp [correlationComponentOf, hc]⟩
      · exact ⟨c, by simp [correlationComponentOf, hc]⟩
  have htopic : getTopicFilter v nsOpt et (some f) cid =
      protocolName ++ '.' :: (natToChars v ++ '.' :: (namespaceComponentOf nsOpt ++ '.' ::
        ((_getEventTopicComponentFor et ++ _encodeTopicComponent f) ++
          '.' :: ('.' :: Y)))) := by
    simp [getTopicFilter, how, hf, hY, List.append_assoc]
  rw [htopic, splitOnDot_cons_append _ _ protocolName_dotfree,
      splitOnDot_cons_append _ _ (natToChars_dotfree v),
      splitOnDot_cons_append _ _ hNSdot,
      splitOnDot_cons_append _ _ hEV]
  rfl

theorem c2_witness :
    (splitOnDot (getTopicFilter 1 (some "n".data) CommunicationEventType.Resolve
        (some "foo".data) (some "c".data))).get? 3 =
      some (_getEventTopicComponentFor CommunicationEventType.Resolve ++
        _encodeTopicComponent "foo".data) :=
  c2_response_filter_not_rejected 1 (some "n".data) CommunicationEventType.Resolve
    "foo".data (some "c".data) (Or.inl rfl) (by decide)

/-- C10 (counterexample): the hash character is not escaped by the encoder,
so the encoding of "#" is "#" and the output contains a hash. -/
theorem c10_encode_hash_counterexample :
    _encodeTopicComponent ['#'] = ['#'] ∧ '#' ∈ _encodeTopicComponent ['#'] := by
  decide

/-- C10 (amended): for every input string that contains no hash, every
character of the encoder output is not a dot, not one of the whitespace
list characters and not a hash, so the encoded component occupies exactly
one dot-separated topic segment. -/
theorem c10_encoded_component_chars (s : List Char) (c : Char)
    (h : '#' ∉ s) (hc : c ∈ _encodeTopicComponent s) :
    c ≠ '.' ∧ c ∉ WHITESPACE_CHARS ∧ c ≠ '#' := by
  obtain ⟨h1, h2, h3⟩ := encode_chars s c hc
  exact ⟨h1, h2, fun hh => h (h3 hh)⟩

theorem c10_witness :
    nulChar ≠ '.' ∧ nulChar ∉ WHITESPACE_CHARS ∧ nulChar ≠ '#' :=
  c10_encoded_component_chars "a.b c".data nulChar (by decide) (by decide)

end WampTopic

namespace WampBinding

/-- C1 (counterexample): on a close with reason unreachable the binding
runs a full reset: with one queued publication and one issued subscription,
both collections are cleared rather than retained. -/
theorem c1_unreachable_clears_counterexample :
    (connectionOnClose CloseReason.unreachable wState).1.pendingPublicationItems = [] ∧
    (connectionOnClose CloseReason.unreachable wState).1.issuedSubscriptionItems = [] ∧
    wState.pendingPublicationItems = [wPub1] ∧
    wState.issuedSubscriptionItems = [wSub1] :=
  ⟨rfl, rfl, rfl, rfl⟩

/-- C1 (amended): only the close reason lost retains the publication queue
and the subscription registry desired state, invalidating every live
subscription handle; the reasons unreachable and unsupported run a full
reset that clears both collections; in each case exactly one Offline
notification is emitted. -/
theorem c1_close_reason_effects (st : WampBindingState) :
    ((connectionOnClose CloseReason.lost st).1.pendingPublicationItems =
        st.pendingPublicationItems ∧
      (connectionOnClose CloseReason.lost st).1.issuedSubscriptionItems =
        st.issuedSubscriptionItems.map (fun i => { i with subscription := none }) ∧
      (connectionOnClose CloseReason.lost st).2 = [StateNotification.offline]) ∧
    ((connectionOnClose CloseReason.unreachable st).1.pendingPublicationItems = [] ∧
      (connectionOnClose CloseReason.unreachable st).1.issuedSubscriptionItems = [] ∧
      (connectionOnClose CloseReason.unreachable st).2 = [StateNotification.offline]) ∧
    ((connectionOnClose CloseReason.unsupported st).1.pendingPublicationItems = [] ∧
      (connectionOnClose CloseReason.unsupported st).1.issuedSubscriptionItems = [] ∧
      (connectionOnClose CloseReason.unsupported st).2 = [StateNotification.offline]) :=
  ⟨⟨rfl, rfl, rfl⟩, ⟨rfl, rfl, rfl⟩, ⟨rfl, rfl, rfl⟩⟩

/-- C9: a session open without a synchronous initialization throw emits
exactly one Online notification, and every connection close emits exactly
one Offline notification, whatever the reason. -/
theorem c9_single_state_notification (ackResult : PublicationItem → Bool)
    (joinEvents : List PublicationItem) (sessionId : String) (st : WampBindingState)
    (reason : CloseReason) (st2 : WampBindingState) :
    (connectionOnOpen ackResult joinEvents sessionId false st).2 =
      [StateNotification.online] ∧
    (connectionOnClose reason st2).2 = [StateNotification.offline] := by
  constructor
  · rfl
  · cases reason <;> rfl

/-- C5: when the drain reaches an item whose acknowledgment fails, the
failed item and every item behind it stay queued in their original order,
nothing is skipped or reordered, the items before it were sent in order,
and the queue is marked deferred. -/
theorem c5_failed_ack_retains_queue (ackResult : PublicationItem → Bool)
    (pre : List PublicationItem) (x : PublicationItem) (post : List PublicationItem)
    (hpre : ∀ i ∈ pre, ackResult i = true)
    (hack : itemAcknowledge x = true) (hfail : ackResult x = false) :
    _doDrainPublications ackResult true (pre ++ x :: post) = (x :: post, true, pre) :=
  doDrain_fail_retention ackResult pre x post hpre hack hfail

theorem c5_witness :
    _doDrainPublications wAckFailSecond true ([wPub1] ++ wPub2 :: [wPub3]) =
      (wPub2 :: [wPub3], true, [wPub1]) :=
  c5_failed_ack_retains_queue wAckFailSecond [wPub1] wPub2 [wPub3]
    (by decide) (by decide) (by decide)

/-- C6: enqueuing three items at the back of an empty queue and draining
against an open connection whose publishes all succeed sends them in
exactly the enqueue order and leaves the queue empty. -/
theorem c6_drain_in_order (ackResult : PublicationItem → Bool)
    (T1 T2 T3 : PublicationItem)
    (hall : ∀ i ∈ [T1, T2, T3], ackResult i = true) :
    _drainPublications ackResult true
        (_addPublicationItem (_addPublicationItem (_addPublicationItem [] T1 false false)
          T2 false false) T3 false false) true =
      ([], true, [T1, T2, T3]) := by
  have hq : _addPublicationItem (_addPublicationItem (_addPublicationItem [] T1 false false)
      T2 false false) T3 false false = [T1, T2, T3] := by
    simp [addPub_back]
  rw [hq]
  simp [_drainPublications, doDrain_all_success ackResult [T1, T2, T3] hall]

theorem c6_witness :
    _drainPublications (fun _ => true) true
        (_addPublicationItem (_addPublicationItem (_addPublicationItem [] wPub1 false false)
          wPub3 false false) wPub4 false false) true =
      ([], true, [wPub1, wPub3, wPub4]) :=
  c6_drain_in_order (fun _ => true) wPub1 wPub3 wPub4 (by decide)

/-- C7: front-inserting the join events C, then B, then A (the reverse
iteration of the onopen loop over [A, B, C]), with pairwise distinct topics
none of which is already queued, leaves the queue dequeuing A, B, C in that
order ahead of the prior backlog; and an item whose topic is already queued
is not added a second time. -/
theorem c7_join_events_front_order (A B C : PublicationItem)
    (pending q : List PublicationItem) (item : PublicationItem)
    (hAB : A.topic ≠ B.topic) (hAC : A.topic ≠ C.topic) (hBC : B.topic ≠ C.topic)
    (hA : ∀ p ∈ pending, p.topic ≠ A.topic)
    (hB : ∀ p ∈ pending, p.topic ≠ B.topic)
    (hC : ∀ p ∈ pending, p.topic ≠ C.topic)
    (hdup : ∃ i ∈ q, i.topic = item.topic) :
    addJoinEventsAtFront [A, B, C] pending = A :: B :: C :: pending ∧
    _addPublicationItem q item true true = q := by
  constructor
  · have hdist : List.Pairwise (fun a b : PublicationItem => a.topic ≠ b.topic) [A, B, C] := by
      simp [List.pairwise_cons, hAB, hAC, hBC]
    have hfresh : ∀ e ∈ [A, B, C], ∀ p ∈ pending, p.topic ≠ e.topic := by
      intro e he p hp
      simp only [List.mem_cons, List.not_mem_nil, or_false] at he
      rcases he with rfl | rfl | rfl
      · exact hA p hp
      · exact hB p hp
      · exact hC p hp
    simpa using addJoin_all_new [A, B, C] pending hdist hfresh
  · exact addPub_dup q item hdup true

theorem c7_witness :
    addJoinEventsAtFront [wPub1, wPub2, wPub3] [wPub4] =
      wPub1 :: wPub2 :: wPub3 :: [wPub4] ∧
    _addPublicationItem [wPub1] wPub1 true true = [wPub1] :=
  c7_join_events_front_order wPub1 wPub2 wPub3 [wPub4] [wPub1] wPub1
    (by decide) (by decide) (by decide) (by decide) (by decide) (by decide)
    ⟨wPub1, by decide, rfl⟩

/-- C8: on a registry satisfying the invariant of at most one desired item
per key, adding an item and then a second item with the same key leaves
exactly one desired item for that key, the second add returns the first
item for live-handle release, and both add and remove preserve the
invariant at every key. -/
theorem c8_subscription_registry_dedup (l : List SubscriptionItem)
    (item1 item2 : SubscriptionItem) (et : CommunicationEventType) (t m : String)
    (a : CommunicationEventType) (b c : String)
    (hinv : ∀ x y z, desiredCount l x y z ≤ 1)
    (hkey : item2.eventType = item1.eventType ∧ item2.topic = item1.topic ∧
      item2.matchMode = item1.matchMode) :
    desiredCount ((_addSubscriptionItem (_addSubscriptionItem l item1).1 item2).1)
        item1.eventType item1.topic item1.matchMode = 1 ∧
    (_addSubscriptionItem (_addSubscriptionItem l item1).1 item2).2 = some item1 ∧
    desiredCount (_addSubscriptionItem l item1).1 a b c ≤ 1 ∧
    desiredCount (_removeSubscriptionItem l et t m).1 a b c ≤ 1 := by
  obtain ⟨hk1, hk2, hk3⟩ := hkey
  have hinv1 : ∀ x y z, desiredCount (_addSubscriptionItem l item1).1 x y z ≤ 1 :=
    addSub_preserves_inv l item1 hinv
  refine ⟨?_, ?_, hinv1 a b c,
    le_trans (removeSub_count_le l et t m a b c) (hinv a b c)⟩
  · rw [← hk1, ← hk2, ← hk3]
    exact addSub_fst_count_self _ item2 (hinv1 _ _ _)
  · rw [addSub_snd_find, hk1, hk2, hk3]
    exact find?_addSub_self l item1

theorem c8_witness :
    desiredCount ((_addSubscriptionItem (_addSubscriptionItem [] wSub2).1 wSub2).1)
        wSub2.eventType wSub2.topic wSub2.matchMode = 1 ∧
    (_addSubscriptionItem (_addSubscriptionItem [] wSub2).1 wSub2).2 = some wSub2 ∧
    desiredCount (_addSubscriptionItem [] wSub2).1
      CommunicationEventType.Advertise "x" "exact" ≤ 1 ∧
    desiredCount (_removeSubscriptionItem [] CommunicationEventType.Advertise "x" "exact").1
      CommunicationEventType.Advertise "x" "exact" ≤ 1 :=
  c8_subscription_registry_dedup [] wSub2 wSub2
    CommunicationEventType.Advertise "x" "exact"
    CommunicationEventType.Advertise "x" "exact"
    (fun x y z => by simp [desiredCount]) ⟨rfl, rfl, rfl⟩

end WampBinding
